import Mathlib

/-!
Image ingestion task of `main.go` (function `images`, closure `f`).

A shallow embedding of the per-task decode routine: the byte buffer shared by
the two codec calls, the two nested normalisation loops with Go's slice
indexing, and the final call of the sink.  Every observable step of a task
(log line, codec call, pixel query, sink call) is recorded in a trace, and the
way the task ends (normal return or panic) is its result.  The Go runtime decides
whether a call of `make` succeeds; it is a parameter of the task.
-/

namespace Dragonfly

/-! ## Data model -/

/-- One element of a Go `[]byte`. -/
abbrev Byte := Fin 256

/-- Go's `error`, represented by the text of `err.Error()`. -/
abbrev Error := String

/-- Go's `color.RGBA`: four `uint8` channels, kept as naturals below 256. -/
structure RGBA where
  R : Nat
  G : Nat
  B : Nat
  A : Nat
deriving DecidableEq, Repr

/-- The zero value of `color.RGBA`, which `make([]color.RGBA, n)` fills a row with. -/
def RGBA.zero : RGBA := ⟨0, 0, 0, 0⟩

/-- What `color.Color.RGBA()` returns: four `uint32` channel values. -/
structure Color where
  r : Nat
  g : Nat
  b : Nat
  a : Nat
deriving DecidableEq, Repr

/-- Go's `image.Config`, restricted to the two fields `f` reads (both Go `int`). -/
structure Config where
  Width : Int
  Height : Int
deriving DecidableEq, Repr

/-- Go's `image.Image`, restricted to the method `f` calls: `At(x, y).RGBA()`. -/
structure Image where
  At : Int → Int → Color

/-- The Go type `[][]color.RGBA`. -/
abbrev Grid := List (List RGBA)

/-- The local type `Ctx` of `images`.  A codec function receives the unread
content of the reader and returns its result together with the number of bytes
it read from the reader, which are then no longer unread in that reader.  The
field `Done` is not a field here: a call of `ctx.Done(pixels)` is recorded as
the event `Event.done pixels`. -/
structure Ctx where
  Name : String
  Bytes : List Byte
  Decoder : List Byte → Except Error Image × Nat
  Config : List Byte → Except Error Config × Nat

/-- The observable steps of one task, in program order. -/
inductive Event where
  /-- A call `log.Info(msg)` on the logger carrying the field `image context = name`. -/
  | log (name msg : String)
  /-- A call `ctx.Config(buffer)`; `stream` is the unread content of `buffer` at the call. -/
  | config (stream : List Byte)
  /-- A call `ctx.Decoder(buffer)`; `stream` is the unread content of `buffer` at the call. -/
  | decoder (stream : List Byte)
  /-- A call `img.At(x, y)`. -/
  | imgAt (x y : Int)
  /-- A call `ctx.Done(pixels)`. -/
  | done (pixels : Grid)
deriving DecidableEq, Repr

/-- The ways a task can end abnormally. -/
inductive Panic where
  /-- The statement `panic(err)` with the value `err`. -/
  | err (e : Error)
  /-- The runtime panic `makeslice: len out of range` of `make`, on a negative
  length or on a length whose size in bytes the runtime does not admit. -/
  | makeslice
  /-- The fatal error `runtime: out of memory` of `make`. -/
  | outOfMemory
  /-- The runtime panic `index out of range [i] with length len`. -/
  | index (i len : Nat)
deriving DecidableEq, Repr

deriving instance DecidableEq for Except

/-- How a call of `make` with a non-negative length ends. -/
inductive Alloc where
  /-- The slice is allocated, filled with zero values. -/
  | ok
  /-- The runtime panics with `makeslice: len out of range`. -/
  | lenOutOfRange
  /-- The runtime stops with `fatal error: runtime: out of memory`. -/
  | outOfMemory
deriving DecidableEq, Repr

/-- The Go runtime as far as `f` depends on it: what each call of `make` in `f`
does on a non-negative length.  The runtime is not part of the repository. -/
structure Runtime where
  /-- The call `make([][]color.RGBA, len)`. -/
  makeGrid : Nat → Alloc
  /-- The call `make([]color.RGBA, len)` in iteration `x` of the outer loop. -/
  makeRow : Nat → Nat → Alloc

/-- The steps a task performed and how it ended. -/
structure Outcome where
  trace : List Event
  result : Except Panic Unit

/-! ## The task -/

/-- The Go conversion `uint8(v)` of an unsigned value: the low eight bits. -/
def uint8 (v : Nat) : Nat := v % 2 ^ 8

/-- The composite literal `color.RGBA{R: uint8(r), G: uint8(g), B: uint8(b), A: uint8(a)}`. -/
def toRGBA (c : Color) : RGBA := ⟨uint8 c.r, uint8 c.g, uint8 c.b, uint8 c.a⟩

/-- The inner loop `for y := 0; y < imageConfig.Width; y++` of row `x`, entered
at counter `y` with `n` iterations left (`n = Width - y`).  Each iteration calls
`img.At(y, x).RGBA()` and then stores into `pixels[x][y]`, which panics when `y`
is not below the length of `pixels[x]`. -/
def innerLoop (img : Image) (x : Nat) : Nat → Nat → Grid → List Event × Except Panic Grid
  | 0, _, pixels => ([], .ok pixels)
  | n + 1, y, pixels =>
    let c := img.At y x
    let row := pixels.getD x []
    if y < row.length then
      let (t, r) := innerLoop img x n (y + 1) (pixels.set x (row.set y (toRGBA c)))
      (Event.imgAt y x :: t, r)
    else
      ([Event.imgAt y x], .error (.index y row.length))

/-- The outer loop `for x := 0; x < height; x++`, entered at counter `x` with
`n` iterations left (`n = height - x`).  Each iteration stores a fresh row
`make([]color.RGBA, height)` into `pixels[x]` and runs the inner loop on it. -/
def outerLoop (rt : Runtime) (img : Image) (width : Int) (height : Nat) :
    Nat → Nat → Grid → List Event × Except Panic Grid
  | 0, _, pixels => ([], .ok pixels)
  | n + 1, x, pixels =>
    match rt.makeRow x height with
    | .lenOutOfRange => ([], .error .makeslice)
    | .outOfMemory => ([], .error .outOfMemory)
    | .ok =>
      match innerLoop img x width.toNat 0
          (pixels.set x (List.replicate height RGBA.zero)) with
      | (t, .error p) => (t, .error p)
      | (t, .ok pixels1) =>
        let (t2, r) := outerLoop rt img width height n (x + 1) pixels1
        (t ++ t2, r)

/-- The closure `f` of `images`, run on one task descriptor under the runtime
`rt`.  The two codec calls share the one `buffer`.  A call of `make` panics on a
negative length and otherwise does what the runtime says. -/
def f (rt : Runtime) (ctx : Ctx) : Outcome :=
  -- buffer = bytes.NewBuffer(ctx.Bytes): its unread content is all of ctx.Bytes
  let buffer := ctx.Bytes
  let t1 := [Event.log ctx.Name "Decoding config", Event.config buffer]
  match ctx.Config buffer with
  | (.error err, _) => ⟨t1, .error (.err err)⟩
  | (.ok imageConfig, n) =>
    -- the same buffer, after ctx.Config has read n bytes from it
    let buffer := buffer.drop n
    let t2 := t1 ++ [Event.log ctx.Name "Decoding pixels", Event.decoder buffer]
    match ctx.Decoder buffer with
    | (.error err, _) => ⟨t2, .error (.err err)⟩
    | (.ok img, _) =>
      let height := imageConfig.Height
      -- pixels := make([][]color.RGBA, height)
      if height < 0 then ⟨t2, .error .makeslice⟩
      else
        match rt.makeGrid height.toNat with
        | .lenOutOfRange => ⟨t2, .error .makeslice⟩
        | .outOfMemory => ⟨t2, .error .outOfMemory⟩
        | .ok =>
          match outerLoop rt img imageConfig.Width height.toNat height.toNat 0
              (List.replicate height.toNat []) with
          | (t3, .error p) => ⟨t2 ++ t3, .error p⟩
          | (t3, .ok pixels) => ⟨t2 ++ t3 ++ [Event.done pixels], .ok ()⟩

/-! ## Observations on an outcome -/

/-- The grids handed to the sink during a task, in order. -/
def delivered (o : Outcome) : List Grid :=
  o.trace.filterMap fun e => match e with
    | .done g => some g
    | _ => none

/-- The steps of a task from its start to the call of the pixel decoder, for a
metadata decoder that read `n` bytes. -/
def preamble (ctx : Ctx) (n : Nat) : List Event :=
  [Event.log ctx.Name "Decoding config", Event.config ctx.Bytes,
    Event.log ctx.Name "Decoding pixels", Event.decoder (ctx.Bytes.drop n)]

/-- Every call of `make` that a task with reported height `h` performs
succeeds: the grid of `h` rows and each of its `h` rows of `h` cells. -/
def Runtime.allows (rt : Runtime) (h : Nat) : Prop :=
  rt.makeGrid h = .ok ∧ ∀ i, i < h → rt.makeRow i h = .ok

instance (rt : Runtime) (h : Nat) : Decidable (rt.allows h) := by
  unfold Runtime.allows
  infer_instance

/-- The cell `grid[row][col]`, when both indices are in range. -/
def cell (g : Grid) (row col : Nat) : Option RGBA :=
  g[row]?.bind fun r => r[col]?

/-! ## Eight-bit sources -/

/-- Go's method `RGBA()` of `color.RGBA`: each channel `r` is widened by
`r |= r << 8`, which for an eight-bit `r` is `r * 257`. -/
def RGBA.toColor (c : RGBA) : Color := ⟨c.R * 257, c.G * 257, c.B * 257, c.A * 257⟩

/-- Every channel of the pixel fits eight bits. -/
def RGBA.is8bit (c : RGBA) : Prop := c.R ≤ 255 ∧ c.G ≤ 255 ∧ c.B ≤ 255 ∧ c.A ≤ 255

instance (c : RGBA) : Decidable c.is8bit := by
  unfold RGBA.is8bit
  infer_instance

/-! ## Example runtime and task descriptors -/

/-- The runtime of Go on linux/amd64 with memory to spare: `make` panics when the
slice would take more than `maxAlloc = 2 ^ 48` bytes, at 24 bytes per row header
and 4 bytes per `color.RGBA`, and succeeds otherwise. -/
def go64 : Runtime :=
  ⟨fun len => if 2 ^ 48 < 24 * len then .lenOutOfRange else .ok,
    fun _ len => if 2 ^ 48 < 4 * len then .lenOutOfRange else .ok⟩

/-- An image that is opaque white everywhere. -/
def whiteImage : Image := ⟨fun _ _ => ⟨0xFFFF, 0xFFFF, 0xFFFF, 0xFFFF⟩⟩

/-- A task on a non-square asset: the metadata reports 64 × 32 and both decodes succeed. -/
def wideCtx : Ctx :=
  ⟨"Test non-square", [0xFF, 0xD8, 0xFF], fun _ => (.ok whiteImage, 0),
    fun _ => (.ok ⟨64, 32⟩, 2)⟩

/-- A task whose metadata reports width 0 and height `2 ^ 62`. -/
def hugeTallCtx : Ctx :=
  ⟨"huge", [0, 0], fun _ => (.ok whiteImage, 0), fun _ => (.ok ⟨0, 2 ^ 62⟩, 2)⟩

/-- A task whose metadata reports width `2 ^ 62 + 1` and height `2 ^ 62`. -/
def hugeWideCtx : Ctx :=
  ⟨"huge", [0, 0], fun _ => (.ok whiteImage, 0), fun _ => (.ok ⟨2 ^ 62 + 1, 2 ^ 62⟩, 2)⟩

/-- A task on an opaque white square image of side `2 ^ 62`. -/
def hugeSquareCtx : Ctx :=
  ⟨"huge", [0, 0], fun _ => (.ok whiteImage, 0), fun _ => (.ok ⟨2 ^ 62, 2 ^ 62⟩, 2)⟩

/-- An image with sixteen-bit channel values that are not multiples of 257. -/
def deepImage : Image := ⟨fun _ y => ⟨0x1234, 0x8000, 0xFFFF, 0x0100 + y.toNat⟩⟩

/-- A task on an asset narrower than tall: the metadata reports 1 × 2. -/
def tallCtx : Ctx :=
  ⟨"tall", [1, 2], fun _ => (.ok deepImage, 0), fun _ => (.ok ⟨1, 2⟩, 2)⟩

/-- The grid `tallCtx` hands to its sink. -/
def tallGrid : Grid :=
  [[⟨0x34, 0, 0xFF, 0⟩, ⟨0, 0, 0, 0⟩], [⟨0x34, 0, 0xFF, 1⟩, ⟨0, 0, 0, 0⟩]]

/-- The pixels of the 2 × 2 test image, by `(x, y)`: red and green on row 0,
blue and opaque white on row 1. -/
def rgbwSource : Nat → Nat → RGBA
  | 0, 0 => ⟨255, 0, 0, 255⟩
  | 1, 0 => ⟨0, 255, 0, 255⟩
  | 0, 1 => ⟨0, 0, 255, 255⟩
  | 1, 1 => ⟨255, 255, 255, 255⟩
  | _, _ => ⟨0, 0, 0, 0⟩

/-- A task on the 2 × 2 test image, decoded into `color.RGBA` pixels. -/
def rgbwCtx : Ctx :=
  ⟨"rgbw", [2, 2], fun _ => (.ok ⟨fun x y => (rgbwSource x.toNat y.toNat).toColor⟩, 0),
    fun _ => (.ok ⟨2, 2⟩, 2)⟩

/-- A task on a truncated asset: the metadata decode fails. -/
def truncatedCtx : Ctx :=
  ⟨"Test non-square", [0xFF], fun _ => (.ok whiteImage, 0),
    fun s => (.error "unexpected EOF", s.length)⟩

/-- A task whose metadata decode succeeds and whose pixel decode fails. -/
def brokenPixelsCtx : Ctx :=
  ⟨"Test transparency and 128 * 128", [0x89, 0x50],
    fun s => (.error "unexpected EOF", s.length), fun _ => (.ok ⟨128, 128⟩, 0)⟩

/-- The metadata decoder of a toy raw format: one byte of width, one byte of height. -/
def rawConfig : List Byte → Except Error Config × Nat
  | w :: h :: _ => (.ok ⟨w.val, h.val⟩, 2)
  | s => (.error "unexpected EOF", s.length)

/-- The pixel decoder of the toy raw format: the two header bytes, then one
gray byte per pixel, row by row. -/
def rawDecoder : List Byte → Except Error Image × Nat
  | w :: h :: rest =>
    if rest.length < w.val * h.val then (.error "unexpected EOF", rest.length + 2)
    else
      (.ok ⟨fun x y =>
          let v := (rest.getD (y.toNat * w.val + x.toNat) 0).val * 257
          ⟨v, v, v, 0xFFFF⟩⟩,
        w.val * h.val + 2)
  | s => (.error "unexpected EOF", s.length)

/-- A task on a well-formed 1 × 1 asset of the toy raw format. -/
def rawCtx : Ctx := ⟨"raw", [1, 1, 7], rawDecoder, rawConfig⟩

/-- The text `s` occurs in the text of the error `e`. -/
def mentions (e : Error) (s : String) : Prop := s.data <:+: e.data

instance (e : Error) (s : String) : Decidable (mentions e s) := by
  unfold mentions
  infer_instance

/-! ## The loops -/

/-- When the counter range of the inner loop fits the row, the loop ends
normally: it queries the image once per counter value and overwrites exactly
those cells of row `x`. -/
theorem innerLoop_ok (img : Image) (x : Nat) :
    ∀ (n y : Nat) (pixels : Grid) (row : List RGBA),
      pixels[x]? = some row → y + n ≤ row.length →
      ∃ row1, innerLoop img x n y pixels =
          ((List.range' y n).map (fun j : Nat => Event.imgAt j x), .ok (pixels.set x row1)) ∧
        row1.length = row.length ∧
        ∀ j, row1[j]? =
          if y ≤ j ∧ j < y + n then some (toRGBA (img.At j x)) else row[j]? := by
  intro n
  induction n with
  | zero =>
    intro y pixels row hrow _
    refine ⟨row, ?_, rfl, ?_⟩
    · have hx : x < pixels.length := by
        rcases List.getElem?_eq_some_iff.mp hrow with ⟨hx, _⟩
        exact hx
      have hset : pixels.set x row = pixels := by
        apply List.ext_getElem? 
        intro i
        by_cases hi : x = i
        · subst hi; simp [List.getElem?_set_self, hx, hrow]
        · simp [List.getElem?_set_ne hi]
      simp [innerLoop, hset]
    · intro j
      have hno : ¬ (y ≤ j ∧ j < y + 0) := by omega
      rw [if_neg hno]
  | succ n ih =>
    intro y pixels row hrow hlen
    have hx : x < pixels.length := by
      rcases List.getElem?_eq_some_iff.mp hrow with ⟨hx, _⟩
      exact hx
    have hy : y < row.length := by omega
    have hgetD : pixels.getD x [] = row := by
      simp [List.getD_eq_getElem?_getD, hrow]
    have hrow1 : (pixels.set x (row.set y (toRGBA (img.At y x))))[x]? =
        some (row.set y (toRGBA (img.At y x))) := by
      simp [List.getElem?_set_self, hx]
    obtain ⟨row1, hrun, hl, hcells⟩ :=
      ih (y + 1) _ _ hrow1 (by simp; omega)
    refine ⟨row1, ?_, ?_, ?_⟩
    · simp only [innerLoop, hgetD, hy, if_true, hrun, List.range'_succ, List.map_cons,
        List.set_set]
    · simpa using hl
    · intro j
      rw [hcells j]
      by_cases hj : j = y
      · subst hj
        simp [List.getElem?_set_self, hy]
      · have hne : y ≠ j := fun h => hj h.symm
        by_cases hin : y + 1 ≤ j ∧ j < y + 1 + n
        · have : y ≤ j ∧ j < y + (n + 1) := by omega
          simp [hin, this]
        · have : ¬ (y ≤ j ∧ j < y + (n + 1)) := by omega
          simp [hin, this, List.getElem?_set_ne hne]

/-- When the counter range of the inner loop runs past the end of the row, the
loop panics at the first counter value equal to the row length, after querying
the image at every counter value up to and including that one. -/
theorem innerLoop_overrun (img : Image) (x : Nat) :
    ∀ (n y : Nat) (pixels : Grid) (row : List RGBA),
      pixels[x]? = some row → y ≤ row.length → row.length < y + n →
      innerLoop img x n y pixels =
        ((List.range' y (row.length - y + 1)).map (fun j : Nat => Event.imgAt j x),
          .error (.index row.length row.length)) := by
  intro n
  induction n with
  | zero =>
    intro y pixels row _ h1 h2
    omega
  | succ n ih =>
    intro y pixels row hrow hle hlt
    have hx : x < pixels.length := by
      rcases List.getElem?_eq_some_iff.mp hrow with ⟨hx, _⟩
      exact hx
    have hgetD : pixels.getD x [] = row := by
      simp [List.getD_eq_getElem?_getD, hrow]
    by_cases hy : y < row.length
    · have hrow1 : (pixels.set x (row.set y (toRGBA (img.At y x))))[x]? =
          some (row.set y (toRGBA (img.At y x))) := by
        simp [List.getElem?_set_self, hx]
      have hrun := ih (y + 1) _ _ hrow1 (by simp; omega) (by simp; omega)
      have hcount : row.length - y + 1 = (row.length - (y + 1) + 1) + 1 := by omega
      simp only [List.length_set] at hrun
      simp only [innerLoop, hgetD, hy, if_true, hrun, hcount, List.range'_succ, List.map_cons]
    · have hyeq : y = row.length := by omega
      subst hyeq
      simp [innerLoop, hrow]

/-- Every step of the inner loop is a query of the image. -/
theorem innerLoop_trace (img : Image) (x : Nat) :
    ∀ (n y : Nat) (pixels : Grid), ∀ e ∈ (innerLoop img x n y pixels).1,
      ∃ a b : Int, e = Event.imgAt a b := by
  intro n
  induction n with
  | zero =>
    intro y pixels e he
    simp [innerLoop] at he
  | succ n ih =>
    intro y pixels e he
    simp only [innerLoop] at he
    split at he
    · rcases List.mem_cons.mp he with h | h
      · exact ⟨_, _, h⟩
      · exact ih _ _ e h
    · rcases List.mem_cons.mp he with h | h
      · exact ⟨_, _, h⟩
      · cases h

/-- The inner loop never ends with a `panic(err)`. -/
theorem innerLoop_error_kind (img : Image) (x : Nat) :
    ∀ (n y : Nat) (pixels : Grid) (e : Error),
      (innerLoop img x n y pixels).2 ≠ .error (.err e) := by
  intro n
  induction n with
  | zero =>
    intro y pixels e h
    simp [innerLoop] at h
  | succ n ih =>
    intro y pixels e h
    simp only [innerLoop] at h
    split at h
    · exact ih _ _ e h
    · simp at h

/-- The outer loop on a grid whose rows are at least as long as the width, with
every row allocation succeeding, ends normally: every query has its column below
the width, and each row of the counter range is a fresh row of `height` cells
whose first `width` cells hold the converted samples of that row of the image. -/
theorem outerLoop_ok (rt : Runtime) (img : Image) (width : Int) (h : Nat)
    (hw : width.toNat ≤ h) :
    ∀ (n x : Nat) (pixels : Grid), x + n ≤ pixels.length →
      (∀ i, x ≤ i → i < x + n → rt.makeRow i h = .ok) →
      ∃ t g, outerLoop rt img width h n x pixels = (t, .ok g) ∧
        (∀ e ∈ t, ∃ i j : Nat, e = Event.imgAt j i ∧ j < width.toNat ∧ i < x + n) ∧
        g.length = pixels.length ∧
        (∀ i, ¬ (x ≤ i ∧ i < x + n) → g[i]? = pixels[i]?) ∧
        (∀ i, x ≤ i → i < x + n → ∃ row, g[i]? = some row ∧ row.length = h ∧
          ∀ j, row[j]? =
            if j < width.toNat then some (toRGBA (img.At j i))
            else if j < h then some RGBA.zero else none) := by
  intro n
  induction n with
  | zero =>
    intro x pixels _ _
    refine ⟨[], pixels, rfl, ?_, rfl, fun _ _ => rfl, ?_⟩
    · intro e he
      cases he
    · intro i h1 h2
      omega
  | succ n ih =>
    intro x pixels hlen halloc
    have hx : x < pixels.length := by omega
    have hmk : rt.makeRow x h = .ok := halloc x (le_refl _) (by omega)
    have hrow0 : (pixels.set x (List.replicate h RGBA.zero))[x]? =
        some (List.replicate h RGBA.zero) := by
      simp [List.getElem?_set_self, hx]
    obtain ⟨row1, hrun, hl, hcells⟩ :=
      innerLoop_ok img x width.toNat 0 _ _ hrow0 (by simpa using hw)
    rw [List.set_set] at hrun
    obtain ⟨t2, g, hrun2, hev, hglen, hout, hin⟩ :=
      ih (x + 1) (pixels.set x row1) (by simp; omega)
        (fun i h1 h2 => halloc i (by omega) (by omega))
    refine ⟨(List.range' 0 width.toNat).map (fun j : Nat => Event.imgAt j x) ++ t2, g,
      ?_, ?_, ?_, ?_, ?_⟩
    · simp only [outerLoop, hmk, hrun, hrun2]
    · intro e he
      rcases List.mem_append.mp he with he | he
      · obtain ⟨j, hj, rfl⟩ := List.mem_map.mp he
        have hj2 := List.mem_range'_1.mp hj
        exact ⟨x, j, rfl, by omega, by omega⟩
      · obtain ⟨i, j, rfl, h1, h2⟩ := hev e he
        exact ⟨i, j, rfl, h1, by omega⟩
    · simpa using hglen
    · intro i hi
      have hne : x ≠ i := by omega
      rw [hout i (by omega), List.getElem?_set_ne hne]
    · intro i h1 h2
      by_cases hix : i = x
      · subst hix
        refine ⟨row1, ?_, by simpa using hl, ?_⟩
        · rw [hout i (by omega)]
          simp [List.getElem?_set_self, hx]
        · intro j
          rw [hcells j]
          by_cases hj : j < width.toNat
          · simp [hj]
          · simp [hj, List.getElem?_replicate]
      · exact hin i (by omega) (by omega)

/-- The outer loop on a width above the height panics in its first iteration,
once its row is allocated, at the column equal to the height. -/
theorem outerLoop_overrun (rt : Runtime) (img : Image) (width : Int) (h n x : Nat)
    (pixels : Grid) (hx : x < pixels.length) (hw : h < width.toNat)
    (hmk : rt.makeRow x h = .ok) :
    outerLoop rt img width h (n + 1) x pixels =
      ((List.range' 0 (h + 1)).map (fun j : Nat => Event.imgAt j x),
        .error (.index h h)) := by
  have hrow0 : (pixels.set x (List.replicate h RGBA.zero))[x]? =
      some (List.replicate h RGBA.zero) := by
    simp [List.getElem?_set_self, hx]
  have hrun := innerLoop_overrun img x width.toNat 0 _ _ hrow0 (by simp) (by simpa using hw)
  simp only [List.length_replicate, Nat.sub_zero] at hrun
  simp only [outerLoop, hmk, hrun]

/-- Every step of the outer loop is a query of the image. -/
theorem outerLoop_trace (rt : Runtime) (img : Image) (width : Int) (h : Nat) :
    ∀ (n x : Nat) (pixels : Grid), ∀ e ∈ (outerLoop rt img width h n x pixels).1,
      ∃ a b : Int, e = Event.imgAt a b := by
  intro n
  induction n with
  | zero =>
    intro x pixels e he
    simp [outerLoop] at he
  | succ n ih =>
    intro x pixels e he
    simp only [outerLoop] at he
    split at he
    · cases he
    · cases he
    · split at he
      next t p hrun =>
        have := innerLoop_trace img x width.toNat 0
          (pixels.set x (List.replicate h RGBA.zero)) e
        rw [hrun] at this
        exact this he
      next t pixels1 hrun =>
        rcases List.mem_append.mp he with h1 | h1
        · have := innerLoop_trace img x width.toNat 0
            (pixels.set x (List.replicate h RGBA.zero)) e
          rw [hrun] at this
          exact this h1
        · exact ih _ _ e h1

/-- The outer loop never ends with a `panic(err)`. -/
theorem outerLoop_error_kind (rt : Runtime) (img : Image) (width : Int) (h : Nat) :
    ∀ (n x : Nat) (pixels : Grid) (e : Error),
      (outerLoop rt img width h n x pixels).2 ≠ .error (.err e) := by
  intro n
  induction n with
  | zero =>
    intro x pixels e hr
    simp [outerLoop] at hr
  | succ n ih =>
    intro x pixels e hr
    simp only [outerLoop] at hr
    split at hr
    · simp at hr
    · simp at hr
    · split at hr
      next t p hrun =>
        have := innerLoop_error_kind img x width.toNat 0
          (pixels.set x (List.replicate h RGBA.zero)) e
        rw [hrun] at this
        exact this hr
      next t pixels1 hrun =>
        exact ih _ _ e hr

/-- The outer loop ends normally only if every row allocation of its counter
range succeeds and, unless the range is empty, the width is within the height. -/
theorem outerLoop_ok_only_if (rt : Runtime) (img : Image) (width : Int) (h : Nat) :
    ∀ (n x : Nat) (pixels : Grid), x + n ≤ pixels.length →
      ∀ t g, outerLoop rt img width h n x pixels = (t, .ok g) →
        (∀ i, x ≤ i → i < x + n → rt.makeRow i h = .ok) ∧ (n = 0 ∨ width.toNat ≤ h) := by
  intro n
  induction n with
  | zero =>
    intro x pixels _ t g _
    exact ⟨fun i h1 h2 => by omega, Or.inl rfl⟩
  | succ n ih =>
    intro x pixels hlen t g hrun
    have hx : x < pixels.length := by omega
    cases hmk : rt.makeRow x h with
    | lenOutOfRange => simp [outerLoop, hmk] at hrun
    | outOfMemory => simp [outerLoop, hmk] at hrun
    | ok =>
      by_cases hw : width.toNat ≤ h
      · have hrow0 : (pixels.set x (List.replicate h RGBA.zero))[x]? =
            some (List.replicate h RGBA.zero) := by
          simp [List.getElem?_set_self, hx]
        obtain ⟨row1, hin, _, _⟩ :=
          innerLoop_ok img x width.toNat 0 _ _ hrow0 (by simpa using hw)
        rw [List.set_set] at hin
        simp only [outerLoop, hmk, hin] at hrun
        obtain ⟨hrest, _⟩ := ih (x + 1) (pixels.set x row1) (by simp; omega)
          (outerLoop rt img width h n (x + 1) (pixels.set x row1)).1 g (by
            rw [Prod.ext_iff] at hrun ⊢
            exact ⟨rfl, hrun.2⟩)
        refine ⟨?_, Or.inr hw⟩
        intro i h1 h2
        by_cases hix : i = x
        · rw [hix]
          exact hmk
        · exact hrest i (by omega) (by omega)
      · rw [outerLoop_overrun rt img width h n x pixels hx (by omega) hmk] at hrun
        simp at hrun

/-! ## The task, case by case -/

/-- A failing metadata decoder ends the task at once with `panic(err)`. -/
theorem f_config_error (rt : Runtime) (ctx : Ctx) (e : Error) (n : Nat)
    (hc : ctx.Config ctx.Bytes = (.error e, n)) :
    f rt ctx = ⟨[Event.log ctx.Name "Decoding config", Event.config ctx.Bytes],
      .error (.err e)⟩ := by
  simp only [f, hc]

/-- A failing pixel decoder ends the task with `panic(err)` right after its call. -/
theorem f_decoder_error (rt : Runtime) (ctx : Ctx) (cfg : Config) (n : Nat) (e : Error)
    (m : Nat) (hc : ctx.Config ctx.Bytes = (.ok cfg, n))
    (hd : ctx.Decoder (ctx.Bytes.drop n) = (.error e, m)) :
    f rt ctx = ⟨preamble ctx n, .error (.err e)⟩ := by
  simp only [f, hc, hd, preamble, List.cons_append, List.nil_append]

/-- A reported width above a positive reported height makes the store into
row 0 panic at the column equal to the height, once the grid and row 0 are
allocated. -/
theorem f_overrun (rt : Runtime) (ctx : Ctx) (cfg : Config) (n : Nat) (img : Image)
    (m : Nat) (hc : ctx.Config ctx.Bytes = (.ok cfg, n))
    (hd : ctx.Decoder (ctx.Bytes.drop n) = (.ok img, m))
    (hH : 1 ≤ cfg.Height) (hW : cfg.Height < cfg.Width)
    (hgrid : rt.makeGrid cfg.Height.toNat = .ok)
    (hrow : rt.makeRow 0 cfg.Height.toNat = .ok) :
    f rt ctx = ⟨preamble ctx n ++
        (List.range' 0 (cfg.Height.toNat + 1)).map (fun j : Nat => Event.imgAt j 0),
      .error (.index cfg.Height.toNat cfg.Height.toNat)⟩ := by
  have hneg : ¬ cfg.Height < 0 := by omega
  obtain ⟨k, hk⟩ : ∃ k, cfg.Height.toNat = k + 1 := ⟨cfg.Height.toNat - 1, by omega⟩
  have hrun := outerLoop_overrun rt img cfg.Width cfg.Height.toNat k 0
    (List.replicate cfg.Height.toNat []) (by simp; omega) (by omega) hrow
  rw [← hk] at hrun
  simp only [f, hc, hd, preamble, hneg, if_false, hgrid, hrun, List.cons_append,
    List.nil_append, Nat.cast_zero]

/-- With every allocation succeeding and the width within the height (or no
row at all), the task ends normally with one call of the sink, on a square grid
of side `Height` whose cells left of `Width` hold the converted samples and
whose other cells are zero; the image is queried only at columns below `Width`
and rows below `Height`. -/
theorem f_ok (rt : Runtime) (ctx : Ctx) (cfg : Config) (n : Nat) (img : Image) (m : Nat)
    (hc : ctx.Config ctx.Bytes = (.ok cfg, n))
    (hd : ctx.Decoder (ctx.Bytes.drop n) = (.ok img, m))
    (hH : 0 ≤ cfg.Height) (hW : cfg.Width ≤ cfg.Height ∨ cfg.Height = 0)
    (hrt : rt.allows cfg.Height.toNat) :
    ∃ t g, f rt ctx = ⟨preamble ctx n ++ t ++ [Event.done g], .ok ()⟩ ∧
      (∀ e ∈ t, ∃ i j : Nat, e = Event.imgAt j i ∧ (j : Int) < cfg.Width ∧
        (i : Int) < cfg.Height) ∧
      g.length = cfg.Height.toNat ∧
      ∀ i, i < cfg.Height.toNat → ∃ row, g[i]? = some row ∧
        row.length = cfg.Height.toNat ∧
        ∀ j : Nat, row[j]? =
          if (j : Int) < cfg.Width then some (toRGBA (img.At j i))
          else if j < cfg.Height.toNat then some RGBA.zero else none := by
  have hneg : ¬ cfg.Height < 0 := by omega
  obtain ⟨hgrid, hrows⟩ := hrt
  by_cases h0 : cfg.Height = 0
  · refine ⟨[], [], ?_, ?_, ?_, ?_⟩
    · simp only [h0, Int.toNat_zero] at hgrid
      simp [f, hc, hd, preamble, h0, hgrid, outerLoop]
    · intro e he
      cases he
    · simp [h0]
    · intro i hi
      simp [h0] at hi
  · have hwle : cfg.Width.toNat ≤ cfg.Height.toNat := by omega
    obtain ⟨t, g, hrun, hev, hlen, _, hin⟩ :=
      outerLoop_ok rt img cfg.Width cfg.Height.toNat hwle cfg.Height.toNat 0
        (List.replicate cfg.Height.toNat []) (by simp)
        (fun i _ h2 => hrows i (by omega))
    refine ⟨t, g, ?_, ?_, ?_, ?_⟩
    · simp only [f, hc, hd, preamble, hneg, if_false, hgrid, hrun, List.cons_append,
        List.nil_append]
    · intro e he
      obtain ⟨i, j, rfl, h1, h2⟩ := hev e he
      exact ⟨i, j, rfl, by omega, by omega⟩
    · simpa using hlen
    · intro i hi
      obtain ⟨row, h1, h2, h3⟩ := hin i (by omega) (by omega)
      refine ⟨row, h1, h2, ?_⟩
      intro j
      rw [h3 j]
      by_cases hj : (j : Int) < cfg.Width
      · have : j < cfg.Width.toNat := by omega
        simp [hj, this]
      · have : ¬ j < cfg.Width.toNat := by omega
        simp [hj, this]

/-- After two successful decodes the task either ends abnormally, with a
runtime failure and after queries only, or calls the sink as its last step; the
latter only with a non-negative height, every allocation succeeding and the
width within the height (or no row at all). -/
theorem f_decoded (rt : Runtime) (ctx : Ctx) (cfg : Config) (n : Nat) (img : Image)
    (m : Nat) (hc : ctx.Config ctx.Bytes = (.ok cfg, n))
    (hd : ctx.Decoder (ctx.Bytes.drop n) = (.ok img, m)) :
    (∃ t p, f rt ctx = ⟨preamble ctx n ++ t, .error p⟩ ∧
        (∀ e ∈ t, ∃ a b : Int, e = Event.imgAt a b) ∧ ∀ e, p ≠ .err e) ∨
      (∃ t g, f rt ctx = ⟨preamble ctx n ++ t ++ [Event.done g], .ok ()⟩ ∧
        (∀ e ∈ t, ∃ a b : Int, e = Event.imgAt a b) ∧
        0 ≤ cfg.Height ∧ rt.allows cfg.Height.toNat ∧
        (cfg.Width ≤ cfg.Height ∨ cfg.Height = 0)) := by
  by_cases hneg : cfg.Height < 0
  · left
    refine ⟨[], .makeslice, ?_, fun e he => (by cases he), fun e h => (by cases h)⟩
    simp only [f, hc, hd, preamble, hneg, if_true, List.cons_append, List.nil_append,
      List.append_nil]
  · cases hgrid : rt.makeGrid cfg.Height.toNat with
    | lenOutOfRange =>
      left
      refine ⟨[], .makeslice, ?_, fun e he => (by cases he), fun e h => (by cases h)⟩
      simp only [f, hc, hd, preamble, hneg, if_false, hgrid, List.cons_append,
        List.nil_append, List.append_nil]
    | outOfMemory =>
      left
      refine ⟨[], .outOfMemory, ?_, fun e he => (by cases he), fun e h => (by cases h)⟩
      simp only [f, hc, hd, preamble, hneg, if_false, hgrid, List.cons_append,
        List.nil_append, List.append_nil]
    | ok =>
      rcases hrun : outerLoop rt img cfg.Width cfg.Height.toNat cfg.Height.toNat 0
        (List.replicate cfg.Height.toNat []) with ⟨t3, r⟩
      have htr := outerLoop_trace rt img cfg.Width cfg.Height.toNat cfg.Height.toNat 0
        (List.replicate cfg.Height.toNat [])
      rw [hrun] at htr
      cases r with
      | error p =>
        left
        refine ⟨t3, p, ?_, htr, ?_⟩
        · simp only [f, hc, hd, preamble, hneg, if_false, hgrid, hrun, List.cons_append,
            List.nil_append]
        · intro e hp
          have hk := outerLoop_error_kind rt img cfg.Width cfg.Height.toNat
            cfg.Height.toNat 0 (List.replicate cfg.Height.toNat []) e
          rw [hrun, hp] at hk
          exact hk rfl
      | ok g =>
        right
        obtain ⟨hrows, hw⟩ := outerLoop_ok_only_if rt img cfg.Width cfg.Height.toNat
          cfg.Height.toNat 0 (List.replicate cfg.Height.toNat []) (by simp) t3 g hrun
        refine ⟨t3, g, ?_, htr, by omega, ⟨hgrid, fun i hi => hrows i (by omega) (by omega)⟩,
          ?_⟩
        · simp only [f, hc, hd, preamble, hneg, if_false, hgrid, hrun, List.cons_append,
            List.nil_append]
        · rcases hw with hw | hw
          · right
            omega
          · left
            omega

/-! ## What reaches the sink -/

/-- A run that ends with one sink call after queries only delivers exactly that grid. -/
theorem delivered_run (ctx : Ctx) (n : Nat) (t : List Event) (g : Grid)
    (r : Except Panic Unit) (hev : ∀ e ∈ t, ∀ g1, e ≠ Event.done g1) :
    delivered ⟨preamble ctx n ++ t ++ [Event.done g], r⟩ = [g] := by
  have ht : t.filterMap (fun e => match e with
      | .done g => some g
      | _ => none) = [] := by
    apply List.filterMap_eq_nil_iff.mpr
    intro e he
    cases e with
    | done g1 => exact absurd rfl (hev _ he g1)
    | _ => rfl
  simp [delivered, preamble, List.filterMap_append, ht]

/-- A run that ends before the sink call delivers nothing. -/
theorem delivered_none (tr : List Event) (r : Except Panic Unit)
    (hev : ∀ e ∈ tr, ∀ g1, e ≠ Event.done g1) :
    delivered ⟨tr, r⟩ = [] := by
  apply List.filterMap_eq_nil_iff.mpr
  intro e he
  cases e with
  | done g1 => exact absurd rfl (hev _ he g1)
  | _ => rfl

/-- A grid is handed to the sink exactly when it is listed by `delivered`. -/
theorem mem_delivered (o : Outcome) (g : Grid) :
    g ∈ delivered o ↔ Event.done g ∈ o.trace := by
  unfold delivered
  rw [List.mem_filterMap]
  constructor
  · rintro ⟨e, he, hg⟩
    cases e with
    | done g1 =>
      simp only [Option.some.injEq] at hg
      subst hg
      exact he
    | _ => simp at hg
  · intro h
    exact ⟨_, h, rfl⟩

/-- No step before the sink call is a sink call. -/
theorem preamble_no_done (ctx : Ctx) (n : Nat) :
    ∀ e ∈ preamble ctx n, ∀ g1, e ≠ Event.done g1 := by
  intro e he g1 heq
  subst heq
  simp [preamble] at he

/-- No query of the image is a sink call. -/
theorem queries_no_done (t : List Event) (h : ∀ e ∈ t, ∃ a b : Int, e = Event.imgAt a b) :
    ∀ e ∈ t, ∀ g1, e ≠ Event.done g1 := by
  intro e he g1 heq
  obtain ⟨a, b, hab⟩ := h e he
  rw [heq] at hab
  cases hab

/-- A sink call happens only with a non-negative height, every allocation
succeeding and a width within the height (or no row at all). -/
theorem f_done_only_if (rt : Runtime) (ctx : Ctx) (cfg : Config) (n : Nat) (img : Image)
    (m : Nat) (hc : ctx.Config ctx.Bytes = (.ok cfg, n))
    (hd : ctx.Decoder (ctx.Bytes.drop n) = (.ok img, m))
    (g : Grid) (hg : Event.done g ∈ (f rt ctx).trace) :
    0 ≤ cfg.Height ∧ rt.allows cfg.Height.toNat ∧
      (cfg.Width ≤ cfg.Height ∨ cfg.Height = 0) := by
  rcases f_decoded rt ctx cfg n img m hc hd with ⟨t, p, hf, ht, _⟩ | ⟨t, g1, hf, _, h⟩
  · exfalso
    rw [hf] at hg
    rcases List.mem_append.mp hg with hg | hg
    · exact preamble_no_done ctx n _ hg g rfl
    · exact queries_no_done t ht _ hg g rfl
  · exact h

/-- The grid of a sink call is the grid described by `f_ok`. -/
theorem f_done_grid (rt : Runtime) (ctx : Ctx) (cfg : Config) (n : Nat) (img : Image)
    (m : Nat) (hc : ctx.Config ctx.Bytes = (.ok cfg, n))
    (hd : ctx.Decoder (ctx.Bytes.drop n) = (.ok img, m))
    (g : Grid) (hg : Event.done g ∈ (f rt ctx).trace) :
    g.length = cfg.Height.toNat ∧
      ∀ i, i < cfg.Height.toNat → ∃ row, g[i]? = some row ∧
        row.length = cfg.Height.toNat ∧
        ∀ j : Nat, row[j]? =
          if (j : Int) < cfg.Width then some (toRGBA (img.At j i))
          else if j < cfg.Height.toNat then some RGBA.zero else none := by
  obtain ⟨hH, hrt, hW⟩ := f_done_only_if rt ctx cfg n img m hc hd g hg
  obtain ⟨t, g1, hf, hev, hlen, hrows⟩ := f_ok rt ctx cfg n img m hc hd hH hW hrt
  have hev1 : ∀ e ∈ t, ∀ g2, e ≠ Event.done g2 := by
    intro e he g2 heq
    obtain ⟨i, j, hij, _⟩ := hev e he
    rw [heq] at hij
    cases hij
  have hmem : g ∈ delivered (f rt ctx) := (mem_delivered _ _).mpr hg
  rw [hf, delivered_run ctx n t g1 _ hev1] at hmem
  have hgg : g = g1 := by simpa using hmem
  subst hgg
  exact ⟨hlen, hrows⟩

/-- No task on a width above a positive height reaches the sink, whatever the
runtime does. -/
theorem f_wide_no_delivery (rt : Runtime) (ctx : Ctx) (cfg : Config) (n : Nat)
    (img : Image) (m : Nat) (hc : ctx.Config ctx.Bytes = (.ok cfg, n))
    (hd : ctx.Decoder (ctx.Bytes.drop n) = (.ok img, m))
    (hH : 1 ≤ cfg.Height) (hW : cfg.Height < cfg.Width) :
    delivered (f rt ctx) = [] := by
  apply List.eq_nil_iff_forall_not_mem.mpr
  intro g hg
  obtain ⟨_, _, h⟩ := f_done_only_if rt ctx cfg n img m hc hd g
    ((mem_delivered _ _).mp hg)
  omega

/-- An eight-bit pixel survives widening by `RGBA()` followed by `uint8`. -/
theorem toRGBA_toColor (c : RGBA) (h : c.is8bit) : toRGBA c.toColor = c := by
  obtain ⟨h1, h2, h3, h4⟩ := h
  cases c with
  | mk R G B A =>
    simp only [toRGBA, RGBA.toColor, uint8, RGBA.mk.injEq]
    simp only at h1 h2 h3 h4
    omega

/-- The low byte of a sixteen-bit value equals its high byte exactly when the
value is a multiple of 257. -/
theorem low_byte_eq_high_byte_iff (v : Nat) (hv : v ≤ 65535) :
    (v % 256 = v >>> 8 ↔ 257 ∣ v) := by
  rw [Nat.shiftRight_eq_div_pow]
  constructor
  · intro h
    omega
  · intro h
    omega

/-! ## The claims -/

/-- C1: in every grid handed to the sink, the cell `grid[row][col]` with
`row < Height` and `col < Width` is the sample `img.At(col, row).RGBA()` with
each of its four channels taken modulo 256. -/
theorem delivered_cell_truncates_sample (rt : Runtime) (ctx : Ctx) (cfg : Config) (n : Nat)
    (img : Image) (m : Nat) (hc : ctx.Config ctx.Bytes = (.ok cfg, n))
    (hd : ctx.Decoder (ctx.Bytes.drop n) = (.ok img, m))
    (g : Grid) (hg : Event.done g ∈ (f rt ctx).trace)
    (row col : Nat) (hrow : (row : Int) < cfg.Height) (hcol : (col : Int) < cfg.Width) :
    cell g row col = some ⟨(img.At col row).r % 256, (img.At col row).g % 256,
      (img.At col row).b % 256, (img.At col row).a % 256⟩ := by
  obtain ⟨_, hrows⟩ := f_done_grid rt ctx cfg n img m hc hd g hg
  obtain ⟨r, h1, _, h3⟩ := hrows row (by omega)
  simp [cell, h1, h3, hcol, toRGBA, uint8]

/-- C1 at `tallCtx`: the cell `[1][0]` of the delivered grid holds the low
bytes of the sample at `(x, y) = (0, 1)`. -/
theorem delivered_cell_truncates_sample_witness :
    Event.done tallGrid ∈ (f go64 tallCtx).trace ∧
      cell tallGrid 1 0 = some ⟨0x34, 0, 0xFF, 1⟩ :=
  ⟨by decide,
    delivered_cell_truncates_sample go64 tallCtx ⟨1, 2⟩ 2 deepImage 0 rfl rfl tallGrid
      (by decide) 1 0 (by decide) (by decide)⟩

/-- C9: in a delivered grid with `Width < Height`, every cell `grid[row][col]`
with `row < Height` and `max(Width, 0) ≤ col < Height` is the zero sample,
whatever the image holds, and the image is never queried at an `x` that is not
below `Width`. -/
theorem delivered_padding_is_zero (rt : Runtime) (ctx : Ctx) (cfg : Config) (n : Nat)
    (img : Image) (m : Nat) (hc : ctx.Config ctx.Bytes = (.ok cfg, n))
    (hd : ctx.Decoder (ctx.Bytes.drop n) = (.ok img, m))
    (g : Grid) (hg : Event.done g ∈ (f rt ctx).trace) (_hwh : cfg.Width < cfg.Height) :
    (∀ row col : Nat, (row : Int) < cfg.Height → max cfg.Width 0 ≤ (col : Int) →
        (col : Int) < cfg.Height → cell g row col = some RGBA.zero) ∧
      ∀ x y : Int, Event.imgAt x y ∈ (f rt ctx).trace → x < cfg.Width := by
  constructor
  · intro row col hrow hlo hhi
    obtain ⟨_, hrows⟩ := f_done_grid rt ctx cfg n img m hc hd g hg
    obtain ⟨r, h1, _, h3⟩ := hrows row (by omega)
    have hnot : ¬ (col : Int) < cfg.Width := by omega
    have hlt : col < cfg.Height.toNat := by omega
    simp [cell, h1, h3, hnot, hlt]
  · intro x y hq
    obtain ⟨hH, hrt, hW⟩ := f_done_only_if rt ctx cfg n img m hc hd g hg
    obtain ⟨t, g1, hf, hev, _, _⟩ := f_ok rt ctx cfg n img m hc hd hH hW hrt
    rw [hf] at hq
    simp only [preamble, List.mem_append, List.mem_cons, List.mem_singleton,
      List.not_mem_nil, or_false, reduceCtorEq, false_or] at hq
    obtain ⟨i, j, hij, hj, _⟩ := hev _ hq
    cases hij
    exact hj

/-- C9 at `tallCtx` (1 × 2): column 1 of the delivered grid is zero on both
rows and the image is not queried at `x = 1`. -/
theorem delivered_padding_is_zero_witness :
    Event.done tallGrid ∈ (f go64 tallCtx).trace ∧
      cell tallGrid 0 1 = some RGBA.zero ∧ cell tallGrid 1 1 = some RGBA.zero ∧
      Event.imgAt 1 0 ∉ (f go64 tallCtx).trace :=
  have h := delivered_padding_is_zero go64 tallCtx ⟨1, 2⟩ 2 deepImage 0 rfl rfl tallGrid
    (by decide) (by decide)
  ⟨by decide, h.1 0 1 (by decide) (by decide) (by decide),
    h.1 1 1 (by decide) (by decide) (by decide),
    fun hq => absurd (h.2 1 0 hq) (by decide)⟩

/-- C10: what the normalisation stores for a sixteen-bit channel value is its
low byte, not its high byte: in every grid handed to the sink, each channel of
the cell `grid[row][col]` with `row < Height` and `col < Width` is the channel
value `v` of `img.At(col, row).RGBA()` modulo 256, and it equals `v >> 8`
exactly when `v` is a multiple of 257; the stored pixel for the channel values
`0x8000` and `0xFFFF` has 0 and 255. -/
theorem stored_channel_is_low_byte (rt : Runtime) (ctx : Ctx) (cfg : Config) (n : Nat)
    (img : Image) (m : Nat) (hc : ctx.Config ctx.Bytes = (.ok cfg, n))
    (hd : ctx.Decoder (ctx.Bytes.drop n) = (.ok img, m))
    (g : Grid) (hg : Event.done g ∈ (f rt ctx).trace)
    (row col : Nat) (hrow : (row : Int) < cfg.Height) (hcol : (col : Int) < cfg.Width)
    (h16 : (img.At col row).r ≤ 65535 ∧ (img.At col row).g ≤ 65535 ∧
      (img.At col row).b ≤ 65535 ∧ (img.At col row).a ≤ 65535) :
    (∃ p, cell g row col = some p ∧
        (p.R = (img.At col row).r % 256 ∧
          (p.R = (img.At col row).r >>> 8 ↔ 257 ∣ (img.At col row).r)) ∧
        (p.G = (img.At col row).g % 256 ∧
          (p.G = (img.At col row).g >>> 8 ↔ 257 ∣ (img.At col row).g)) ∧
        (p.B = (img.At col row).b % 256 ∧
          (p.B = (img.At col row).b >>> 8 ↔ 257 ∣ (img.At col row).b)) ∧
        (p.A = (img.At col row).a % 256 ∧
          (p.A = (img.At col row).a >>> 8 ↔ 257 ∣ (img.At col row).a))) ∧
      toRGBA ⟨0x8000, 0xFFFF, 0x8000, 0xFFFF⟩ = ⟨0, 255, 0, 255⟩ := by
  obtain ⟨_, hrows⟩ := f_done_grid rt ctx cfg n img m hc hd g hg
  obtain ⟨r, h1, _, h3⟩ := hrows row (by omega)
  obtain ⟨hr, hg16, hb, ha⟩ := h16
  refine ⟨⟨toRGBA (img.At col row), by simp [cell, h1, h3, hcol], ?_, ?_, ?_, ?_⟩, by decide⟩
  · exact ⟨rfl, low_byte_eq_high_byte_iff _ hr⟩
  · exact ⟨rfl, low_byte_eq_high_byte_iff _ hg16⟩
  · exact ⟨rfl, low_byte_eq_high_byte_iff _ hb⟩
  · exact ⟨rfl, low_byte_eq_high_byte_iff _ ha⟩

/-- C10 at `tallCtx`, whose image has the channel values `0x1234`, `0x8000`,
`0xFFFF` and `0x0101` at `(x, y) = (0, 1)`: the delivered cell `[1][0]` holds
`0x34`, 0, 255 and 1. -/
theorem stored_channel_is_low_byte_witness :
    Event.done tallGrid ∈ (f go64 tallCtx).trace ∧
      deepImage.At 0 1 = ⟨0x1234, 0x8000, 0xFFFF, 0x0101⟩ ∧
      ∃ p, cell tallGrid 1 0 = some p ∧ p.R = 0x34 ∧ p.G = 0 ∧ p.B = 255 ∧ p.A = 1 := by
  obtain ⟨⟨p, hp, h1, h2, h3, h4⟩, _⟩ :=
    stored_channel_is_low_byte go64 tallCtx ⟨1, 2⟩ 2 deepImage 0 rfl rfl tallGrid
      (by decide) 1 0 (by decide) (by decide) (by decide)
  exact ⟨by decide, rfl, p, hp, h1.1, h2.1, h3.1, h4.1⟩

/-- C6 as stated fails.  On linux/amd64 the white square of side `2 ^ 62`, whose
pixels are the eight-bit white exposed as channel values `255 * 257`, ends in
the `makeslice` panic of the grid allocation and delivers nothing.  And the
well-formed 1 × 1 asset of the toy raw format, whose pixel is the eight-bit
gray `(7, 7, 7, 255)`, delivers nothing either, its pixel decoder being called
on what the metadata decoder left unread. -/
theorem roundtrip_fails_on_huge_side_and_raw_asset :
    (hugeSquareCtx.Config hugeSquareCtx.Bytes = (.ok ⟨2 ^ 62, 2 ^ 62⟩, 2) ∧
        hugeSquareCtx.Decoder (hugeSquareCtx.Bytes.drop 2) = (.ok whiteImage, 0) ∧
        (∀ x y : Int, whiteImage.At x y = (RGBA.mk 255 255 255 255).toColor) ∧
        (RGBA.mk 255 255 255 255).is8bit ∧
        (f go64 hugeSquareCtx).result = .error .makeslice ∧
        delivered (f go64 hugeSquareCtx) = []) ∧
      ((∃ img, rawCtx.Decoder rawCtx.Bytes = (.ok img, 3) ∧
          img.At 0 0 = (RGBA.mk 7 7 7 255).toColor) ∧
        delivered (f go64 rawCtx) = []) := by
  refine ⟨⟨rfl, rfl, fun _ _ => rfl, by decide, by decide, by decide⟩,
    ⟨_, rfl, rfl⟩, by decide⟩

/-- C6, amended: for an `N × N` image of eight-bit pixels, each exposed by the
decoded image as its channels times 257, when the metadata decoder reports
`N × N`, the pixel decoder called on the rest of the buffer returns that image,
and the runtime allocates the grid and its `N` rows, the task hands exactly one
grid to the sink and `grid[row][col]` is the source pixel at
`(x, y) = (col, row)`. -/
theorem roundtrip_8bit (rt : Runtime) (ctx : Ctx) (N : Nat) (src : Nat → Nat → RGBA)
    (n m : Nat) (img : Image) (hc : ctx.Config ctx.Bytes = (.ok ⟨N, N⟩, n))
    (hd : ctx.Decoder (ctx.Bytes.drop n) = (.ok img, m))
    (hrt : rt.allows N)
    (h8 : ∀ x y, x < N → y < N → (src x y).is8bit)
    (himg : ∀ x y : Nat, x < N → y < N → img.At x y = (src x y).toColor) :
    ∃ g, delivered (f rt ctx) = [g] ∧
      ∀ row col, row < N → col < N → cell g row col = some (src col row) := by
  obtain ⟨t, g, hf, hev, _, hrows⟩ :=
    f_ok rt ctx ⟨N, N⟩ n img m hc hd (by simp) (Or.inl (le_refl _)) (by simpa using hrt)
  have hev1 : ∀ e ∈ t, ∀ g2, e ≠ Event.done g2 := by
    intro e he g2 heq
    obtain ⟨i, j, hij, _⟩ := hev e he
    rw [heq] at hij
    cases hij
  refine ⟨g, ?_, ?_⟩
  · rw [hf, delivered_run ctx n t g _ hev1]
  · intro row col hrow hcol
    obtain ⟨r, h1, _, h3⟩ := hrows row (by simpa using hrow)
    have hlt : (col : Int) < (N : Int) := by omega
    have hcell := h3 col
    simp only [hlt, if_true, himg col row hcol hrow,
      toRGBA_toColor _ (h8 col row hcol hrow)] at hcell
    simp [cell, h1, hcell]

/-- C6, amended, at the 2 × 2 image red, green / blue, opaque white. -/
theorem roundtrip_8bit_witness :
    ∃ g, delivered (f go64 rgbwCtx) = [g] ∧
      cell g 0 0 = some ⟨255, 0, 0, 255⟩ ∧ cell g 0 1 = some ⟨0, 255, 0, 255⟩ ∧
      cell g 1 0 = some ⟨0, 0, 255, 255⟩ ∧ cell g 1 1 = some ⟨255, 255, 255, 255⟩ := by
  obtain ⟨g, hg, hcells⟩ := roundtrip_8bit go64 rgbwCtx 2 rgbwSource 2 0
    ⟨fun x y => (rgbwSource x.toNat y.toNat).toColor⟩ rfl rfl (by decide)
    (by
      intro x y hx hy
      interval_cases x <;> interval_cases y <;> decide)
    (by
      intro x y _ _
      simp)
  exact ⟨g, hg, hcells 0 0 (by decide) (by decide), hcells 0 1 (by decide) (by decide),
    hcells 1 0 (by decide) (by decide), hcells 1 1 (by decide) (by decide)⟩

/-- C8 as stated fails.  On linux/amd64 a reported height of `2 ^ 62` makes the
allocation of the grid panic before the loop is entered: with width 0 the sink
is not called although `0 ≤ Height` and `Width ≤ Height`, and with width
`2 ^ 62 + 1` the task ends in the `makeslice` panic, without any query and
without an index panic, although `Width > Height ≥ 1`. -/
theorem huge_height_panics_in_make :
    (hugeTallCtx.Config hugeTallCtx.Bytes = (.ok ⟨0, 2 ^ 62⟩, 2) ∧
        hugeTallCtx.Decoder (hugeTallCtx.Bytes.drop 2) = (.ok whiteImage, 0) ∧
        (f go64 hugeTallCtx).result = .error .makeslice ∧
        delivered (f go64 hugeTallCtx) = []) ∧
      (hugeWideCtx.Config hugeWideCtx.Bytes = (.ok ⟨2 ^ 62 + 1, 2 ^ 62⟩, 2) ∧
        hugeWideCtx.Decoder (hugeWideCtx.Bytes.drop 2) = (.ok whiteImage, 0) ∧
        (f go64 hugeWideCtx).result = .error .makeslice ∧
        (f go64 hugeWideCtx).trace = preamble hugeWideCtx 2) := by
  refine ⟨⟨rfl, rfl, by decide, by decide⟩, rfl, rfl, by decide, by decide⟩

/-- C8, amended: when both decodes succeed with `Width > Height ≥ 1` and the
runtime allocates the grid and its row 0, the task panics with index `Height`
out of range for length `Height`, its last step being the query of column
`Height` on row 0, and the sink is not called; when `0 ≤ Height`,
`Width ≤ Height` and the runtime allocates the grid and all its rows, the task
returns normally and the sink is called. -/
theorem width_above_height_panics (rt : Runtime) (ctx : Ctx) (cfg : Config) (n : Nat)
    (img : Image) (m : Nat) (hc : ctx.Config ctx.Bytes = (.ok cfg, n))
    (hd : ctx.Decoder (ctx.Bytes.drop n) = (.ok img, m)) :
    (1 ≤ cfg.Height → cfg.Height < cfg.Width →
        rt.makeGrid cfg.Height.toNat = .ok → rt.makeRow 0 cfg.Height.toNat = .ok →
        (f rt ctx).result = .error (.index cfg.Height.toNat cfg.Height.toNat) ∧
        (f rt ctx).trace = preamble ctx n ++
          (List.range' 0 (cfg.Height.toNat + 1)).map (fun j : Nat => Event.imgAt j 0) ∧
        delivered (f rt ctx) = []) ∧
      (0 ≤ cfg.Height → cfg.Width ≤ cfg.Height → rt.allows cfg.Height.toNat →
        (f rt ctx).result = .ok () ∧ ∃ g, delivered (f rt ctx) = [g]) := by
  constructor
  · intro hH hW hgrid hrow
    refine ⟨?_, ?_, f_wide_no_delivery rt ctx cfg n img m hc hd hH hW⟩
    · rw [f_overrun rt ctx cfg n img m hc hd hH hW hgrid hrow]
    · rw [f_overrun rt ctx cfg n img m hc hd hH hW hgrid hrow]
  · intro hH hW hrt
    obtain ⟨t, g, hf, hev, _, _⟩ := f_ok rt ctx cfg n img m hc hd hH (Or.inl hW) hrt
    have hev1 : ∀ e ∈ t, ∀ g2, e ≠ Event.done g2 := by
      intro e he g2 heq
      obtain ⟨i, j, hij, _⟩ := hev e he
      rw [heq] at hij
      cases hij
    rw [hf]
    exact ⟨rfl, g, delivered_run ctx n t g _ hev1⟩

/-- C8, amended, at 64 × 32 (panic at index 32 of a row of length 32, no sink
call) and at 2 × 2 (normal return, one sink call), on linux/amd64. -/
theorem width_above_height_panics_witness :
    ((f go64 wideCtx).result = .error (.index 32 32) ∧
        (f go64 wideCtx).trace = preamble wideCtx 2 ++
          (List.range' 0 33).map (fun j : Nat => Event.imgAt j 0) ∧
        delivered (f go64 wideCtx) = []) ∧
      ((f go64 rgbwCtx).result = .ok () ∧ ∃ g, delivered (f go64 rgbwCtx) = [g]) :=
  ⟨(width_above_height_panics go64 wideCtx ⟨64, 32⟩ 2 whiteImage 0 rfl rfl).1
      (by decide) (by decide) (by decide) (by decide),
    (width_above_height_panics go64 rgbwCtx ⟨2, 2⟩ 2
      ⟨fun x y => (rgbwSource x.toNat y.toNat).toColor⟩ 0 rfl rfl).2
      (by decide) (by decide) (by decide)⟩

/-- C5: if the metadata decoder fails, the task panics with that error, and
neither the pixel decoder nor the sink is called; if the metadata decoder
succeeds and the pixel decoder fails, the task panics with that error and the
sink is not called. -/
theorem decode_failure_aborts (rt : Runtime) (ctx : Ctx) :
    (∀ (e : Error) (n : Nat), ctx.Config ctx.Bytes = (.error e, n) →
        (f rt ctx).result = .error (.err e) ∧
        (∀ s, Event.decoder s ∉ (f rt ctx).trace) ∧
        delivered (f rt ctx) = []) ∧
      (∀ (cfg : Config) (n : Nat) (e : Error) (m : Nat),
        ctx.Config ctx.Bytes = (.ok cfg, n) →
        ctx.Decoder (ctx.Bytes.drop n) = (.error e, m) →
        (f rt ctx).result = .error (.err e) ∧ delivered (f rt ctx) = []) := by
  constructor
  · intro e n hc
    rw [f_config_error rt ctx e n hc]
    refine ⟨rfl, ?_, ?_⟩
    · intro s hs
      simp at hs
    · apply delivered_none
      intro e1 he g1 heq
      subst heq
      simp at he
  · intro cfg n e m hc hd
    rw [f_decoder_error rt ctx cfg n e m hc hd]
    exact ⟨rfl, delivered_none _ _ (preamble_no_done ctx n)⟩

/-- C5 at a task whose metadata decode fails and at a task whose pixel decode fails. -/
theorem decode_failure_aborts_witness :
    ((f go64 truncatedCtx).result = .error (.err "unexpected EOF") ∧
        (∀ s, Event.decoder s ∉ (f go64 truncatedCtx).trace) ∧
        delivered (f go64 truncatedCtx) = []) ∧
      ((f go64 brokenPixelsCtx).result = .error (.err "unexpected EOF") ∧
        delivered (f go64 brokenPixelsCtx) = []) :=
  ⟨(decode_failure_aborts go64 truncatedCtx).1 "unexpected EOF" 1 rfl,
    (decode_failure_aborts go64 brokenPixelsCtx).2 ⟨128, 128⟩ 0 "unexpected EOF" 2 rfl rfl⟩

/-- C7 as stated fails: a task whose metadata decode fails and a task whose
pixel decode fails both panic, under every runtime, with the bare codec error
`unexpected EOF`, which mentions neither task's label and is the same for the
two stages. -/
theorem panic_value_lacks_label_and_stage :
    (∀ rt, (f rt truncatedCtx).result = .error (.err "unexpected EOF")) ∧
      ¬ mentions "unexpected EOF" truncatedCtx.Name ∧
      (∀ rt, (f rt brokenPixelsCtx).result = .error (.err "unexpected EOF")) ∧
      ¬ mentions "unexpected EOF" brokenPixelsCtx.Name := by
  refine ⟨fun _ => rfl, by decide, fun _ => rfl, by decide⟩

/-- C7, amended: a task that panics with an error value panics with exactly
the error its failing codec returned; the label and the stage are in the log
line written just before the failing codec call: the trace ends with the log
line `Decoding config` and the metadata decoder call, or with the log line
`Decoding pixels` and the pixel decoder call, both log lines carrying the
label. -/
theorem decode_failure_attribution (rt : Runtime) (ctx : Ctx) (e : Error)
    (h : (f rt ctx).result = .error (.err e)) :
    (∃ n, ctx.Config ctx.Bytes = (.error e, n) ∧
        (f rt ctx).trace =
          [Event.log ctx.Name "Decoding config", Event.config ctx.Bytes]) ∨
      (∃ cfg n m, ctx.Config ctx.Bytes = (.ok cfg, n) ∧
        ctx.Decoder (ctx.Bytes.drop n) = (.error e, m) ∧
        (f rt ctx).trace = [Event.log ctx.Name "Decoding config", Event.config ctx.Bytes,
          Event.log ctx.Name "Decoding pixels", Event.decoder (ctx.Bytes.drop n)]) := by
  rcases hc : ctx.Config ctx.Bytes with ⟨rc, n⟩
  cases rc with
  | error e1 =>
    left
    rw [f_config_error rt ctx e1 n hc] at h ⊢
    simp only [Except.error.injEq, Panic.err.injEq] at h
    subst h
    exact ⟨n, rfl, rfl⟩
  | ok cfg =>
    right
    rcases hd : ctx.Decoder (ctx.Bytes.drop n) with ⟨rd, m⟩
    cases rd with
    | error e1 =>
      rw [f_decoder_error rt ctx cfg n e1 m hc hd] at h ⊢
      simp only [Except.error.injEq, Panic.err.injEq] at h
      subst h
      exact ⟨cfg, n, m, rfl, hd, rfl⟩
    | ok img =>
      exfalso
      rcases f_decoded rt ctx cfg n img m hc hd with ⟨t, p, hf, _, hp⟩ | ⟨t, g, hf, _⟩
      · rw [hf] at h
        simp only [Except.error.injEq] at h
        exact hp e h
      · rw [hf] at h
        simp at h

/-- C7, amended, at a task whose metadata decode fails. -/
theorem decode_failure_attribution_witness :
    (f go64 truncatedCtx).result = .error (.err "unexpected EOF") ∧
      ((∃ n, truncatedCtx.Config truncatedCtx.Bytes = (.error "unexpected EOF", n) ∧
          (f go64 truncatedCtx).trace =
            [Event.log "Test non-square" "Decoding config", Event.config [0xFF]]) ∨
        (∃ cfg n m, truncatedCtx.Config truncatedCtx.Bytes = (.ok cfg, n) ∧
          truncatedCtx.Decoder (truncatedCtx.Bytes.drop n) = (.error "unexpected EOF", m) ∧
          (f go64 truncatedCtx).trace =
            [Event.log "Test non-square" "Decoding config", Event.config [0xFF],
              Event.log "Test non-square" "Decoding pixels",
              Event.decoder (truncatedCtx.Bytes.drop n)])) :=
  ⟨by decide, decode_failure_attribution go64 truncatedCtx "unexpected EOF" (by decide)⟩

/-- C2 at the 64 × 32 task: both decodes succeed, on linux/amd64 the task
panics with index 32 out of range for length 32, and under no runtime does a
grid reach the sink. -/
theorem non_square_produces_no_grid :
    wideCtx.Config wideCtx.Bytes = (.ok ⟨64, 32⟩, 2) ∧
      (f go64 wideCtx).result = .error (.index 32 32) ∧
      ∀ rt, ¬ ∃ g, Event.done g ∈ (f rt wideCtx).trace ∧ g.length = 32 ∧
        ∀ r ∈ g, r.length = 32 := by
  refine ⟨rfl, by decide, ?_⟩
  rintro rt ⟨g, hg, _⟩
  have hmem := (mem_delivered _ _).mpr hg
  rw [f_wide_no_delivery rt wideCtx ⟨64, 32⟩ 2 whiteImage 0 rfl rfl (by decide)
    (by decide)] at hmem
  cases hmem

/-- C3 at the 64 × 32 task: both decodes succeed and, under every runtime, the
sink is called zero times. -/
theorem non_square_sink_not_called :
    (∃ img k, wideCtx.Config wideCtx.Bytes = (.ok ⟨64, 32⟩, 2) ∧
        wideCtx.Decoder (wideCtx.Bytes.drop 2) = (.ok img, k)) ∧
      ∀ rt, (delivered (f rt wideCtx)).length = 0 := by
  refine ⟨⟨whiteImage, 0, rfl, rfl⟩, ?_⟩
  intro rt
  rw [f_wide_no_delivery rt wideCtx ⟨64, 32⟩ 2 whiteImage 0 rfl rfl (by decide)
    (by decide)]
  rfl

/-- C4 at a well-formed 1 × 1 asset of the toy raw format: the metadata decoder
reads the two header bytes, the pixel decoder is then called on the one byte
left instead of the three bytes of the asset, and fails, although it decodes
the whole asset when given it from the first byte. -/
theorem decoder_reads_rest_of_buffer :
    (∀ rt, (f rt rawCtx).trace =
        [Event.log "raw" "Decoding config", Event.config [1, 1, 7],
          Event.log "raw" "Decoding pixels", Event.decoder [7]]) ∧
      (∀ rt, Event.decoder rawCtx.Bytes ∉ (f rt rawCtx).trace) ∧
      (∀ rt, (f rt rawCtx).result = .error (.err "unexpected EOF")) ∧
      ∃ img, rawCtx.Decoder rawCtx.Bytes = (.ok img, 3) := by
  have htrace : ∀ rt, (f rt rawCtx).trace =
      [Event.log "raw" "Decoding config", Event.config [1, 1, 7],
        Event.log "raw" "Decoding pixels", Event.decoder [7]] := fun _ => rfl
  refine ⟨htrace, ?_, fun _ => rfl, ⟨_, rfl⟩⟩
  intro rt hmem
  rw [htrace rt] at hmem
  revert hmem
  decide

end Dragonfly
